import Mathlib

/-!
Verification of the technical-indicator summarization pipeline of the
A-Share-Advisor repository (src/tech_analysis.py).

The reducer logic (profile table, read defaults, classification labels,
summary assembly) is translated from `analyze_stock_data` in
src/tech_analysis.py.  The indicator computations themselves are performed
by the external pandas_ta library, which is not part of the repository;
those are modelled from the spec's algorithm definitions (section 4.2),
as indicated on each definition.  Undefined cells (NaN in the
implementation) are modelled as `none`.
-/

/-- One observation of the PriceSeries: a date index plus the five raw
OHLCV fields (src/data_fetcher.py produces these columns). -/
structure Row where
  date : ℕ
  openV : ℚ
  highV : ℚ
  lowV : ℚ
  close : ℚ
  volume : ℚ
deriving DecidableEq, Repr

/-- The MACD parameter sub-record of a horizon profile
(`params['macd']` in src/tech_analysis.py). -/
structure MacdParams where
  fast : ℕ
  slow : ℕ
  signal : ℕ
deriving DecidableEq, Repr

/-- A horizon profile: one entry of STRATEGY_PARAMS in src/tech_analysis.py. -/
structure Params where
  macd : MacdParams
  rsiLength : ℕ
  emaFast : ℕ
  emaSlow : ℕ
  desc : String
deriving DecidableEq, Repr

/-- The 'short' profile of STRATEGY_PARAMS (src/tech_analysis.py lines 9-15). -/
def shortParams : Params :=
  { macd := { fast := 6, slow := 13, signal := 4 }
    rsiLength := 6, emaFast := 5, emaSlow := 10
    desc := "Aggressive/Short-term" }

/-- The 'mid' profile of STRATEGY_PARAMS (src/tech_analysis.py lines 17-23). -/
def midParams : Params :=
  { macd := { fast := 12, slow := 26, signal := 9 }
    rsiLength := 14, emaFast := 20, emaSlow := 60
    desc := "Standard/Swing-trade" }

/-- The 'long' profile of STRATEGY_PARAMS (src/tech_analysis.py lines 25-31). -/
def longParams : Params :=
  { macd := { fast := 24, slow := 52, signal := 18 }
    rsiLength := 21, emaFast := 60, emaSlow := 250
    desc := "Conservative/Long-term" }

/-- STRATEGY_PARAMS (src/tech_analysis.py lines 7-32), as an association
list keyed by the horizon tag. -/
def STRATEGY_PARAMS : List (String × Params) :=
  [("short", shortParams), ("mid", midParams), ("long", longParams)]

/-- Profile resolution: `STRATEGY_PARAMS.get(period_type, STRATEGY_PARAMS['mid'])`
(src/tech_analysis.py line 43). -/
def getParams (period_type : String) : Params :=
  (STRATEGY_PARAMS.lookup period_type).getD midParams

/-- Modelled from the spec: exponential smoothing of a series with factor
`α`, seeded by the simple average of the first `len` observations
(section 4.2, the convention used for both EMAs and Wilder smoothing;
the pandas_ta library that computes this is not part of the repository).
Positions before the seed are undefined (`none`). -/
def smoothAt (α : ℚ) (len : ℕ) (xs : List ℚ) : ℕ → Option ℚ
  | 0 => if len ≤ 1 then some ((xs.take len).sum / (len : ℚ)) else none
  | j + 1 =>
    if j + 2 < len then none
    else if j + 2 = len then some ((xs.take len).sum / (len : ℚ))
    else (smoothAt α len xs j).map fun prev =>
      α * xs.getD (j + 1) 0 + (1 - α) * prev

/-- Modelled from the spec: EMA(length) of a series with smoothing factor
α = 2/(length+1), seeded by the simple average of the first `length`
observations (section 4.2). -/
def emaAt (len : ℕ) (c : List ℚ) (i : ℕ) : Option ℚ :=
  smoothAt (2 / ((len : ℚ) + 1)) len c i

/-- Modelled from the spec: MACD line = EMA(fast) − EMA(slow), both on
Close (section 4.2); undefined wherever either EMA is undefined. -/
def macdLineAt (p : MacdParams) (c : List ℚ) (i : ℕ) : Option ℚ :=
  match emaAt p.fast c i, emaAt p.slow c i with
  | some a, some b => some (a - b)
  | _, _ => none

/-- The defined values of the MACD line over the series, in order: the
region on which the signal line's EMA is computed. -/
def macdVals (p : MacdParams) (c : List ℚ) : List ℚ :=
  (List.range c.length).filterMap (macdLineAt p c)

/-- Modelled from the spec: signal line = EMA(MACD line, length=signal)
(section 4.2), computed over the defined region of the MACD line, aligned
back to the source index. -/
def signalAt (p : MacdParams) (c : List ℚ) (i : ℕ) : Option ℚ :=
  if i + 1 < p.slow then none
  else emaAt p.signal (macdVals p c) (i + 1 - p.slow)

/-- Modelled from the spec: histogram = MACD line − signal line
(section 4.2); undefined wherever either operand is undefined. -/
def macdHistAt (p : MacdParams) (c : List ℚ) (i : ℕ) : Option ℚ :=
  match macdLineAt p c i, signalAt p c i with
  | some m, some s => some (m - s)
  | _, _ => none

/-- First differences of the Close series (close_{j+1} − close_j). -/
def diffs (c : List ℚ) : List ℚ :=
  (List.range (c.length - 1)).map fun j => c.getD (j + 1) 0 - c.getD j 0

/-- Per-period gains of the Close series. -/
def gains (c : List ℚ) : List ℚ := (diffs c).map fun d => max d 0

/-- Per-period losses of the Close series (as non-negative magnitudes). -/
def losses (c : List ℚ) : List ℚ := (diffs c).map fun d => max (-d) 0

/-- Modelled from the spec: RSI = 100 − 100/(1 + avg_gain/avg_loss); when
avg_loss is zero and some gain exists, RSI = 100 (section 4.2).  When both
averages are zero the quotient is undefined (NaN in the implementation,
matching the flat-series property of section 8). -/
def rsiFormula (g l : ℚ) : Option ℚ :=
  if l = 0 then (if g = 0 then none else some 100)
  else some (100 - 100 / (1 + g / l))

/-- Modelled from the spec: Wilder's smoothed RSI — average gain and
average loss over `len` periods using exponential smoothing with
α = 1/len, combined by `rsiFormula` (section 4.2). -/
def rsiAt (len : ℕ) (c : List ℚ) : ℕ → Option ℚ
  | 0 => none
  | j + 1 =>
    match smoothAt (1 / (len : ℚ)) len (gains c) j,
          smoothAt (1 / (len : ℚ)) len (losses c) j with
    | some g, some l => rsiFormula g l
    | _, _ => none

/-- The Close column of a PriceSeries. -/
def closes (df : List Row) : List ℚ := df.map Row.close

/-- The IndicatorFrame: the raw PriceSeries plus the appended indicator
columns, aligned row-for-row (undefined cells are `none`). -/
structure Frame where
  raw : List Row
  macdLine : List (Option ℚ)
  macdSignal : List (Option ℚ)
  macdHist : List (Option ℚ)
  rsi : List (Option ℚ)
  emaFast : List (Option ℚ)
  emaSlow : List (Option ℚ)
deriving DecidableEq, Repr

/-- The indicator engine: appends the MACD, RSI and EMA columns for the
resolved profile to the series (src/tech_analysis.py lines 49-61; the
column contents are modelled from the spec as the library is external). -/
def computeIndicators (p : Params) (df : List Row) : Frame :=
  let c := closes df
  let n := df.length
  { raw := df
    macdLine := (List.range n).map (macdLineAt p.macd c)
    macdSignal := (List.range n).map (signalAt p.macd c)
    macdHist := (List.range n).map (macdHistAt p.macd c)
    rsi := (List.range n).map (rsiAt p.rsiLength c)
    emaFast := (List.range n).map (emaAt p.emaFast c)
    emaSlow := (List.range n).map (emaAt p.emaSlow c) }

/-- The last cell of an indicator column: `none` when the column is empty
(missing) or the last value is undefined. -/
def lastCell (col : List (Option ℚ)) : Option ℚ := col.getLast?.join

/-- Read of an indicator at the last row with a default, the semantics of
`last_row.get(col, default)` (src/tech_analysis.py lines 77-80): the
default is substituted when the column is missing or the value undefined. -/
def readLastD (col : List (Option ℚ)) (d : ℚ) : ℚ := (lastCell col).getD d

/-- RSI status classification (src/tech_analysis.py lines 86-90). -/
def rsiStatusLabel (rsiVal : ℚ) : String :=
  if rsiVal > 70 then "OVERBOUGHT (High Risk)"
  else if rsiVal < 30 then "OVERSOLD (Potential Bounce)"
  else "NEUTRAL"

/-- Trend classification from latest Close and the two EMA reads
(src/tech_analysis.py lines 93-99; Python's chained comparison
`price > ema_fast_val > ema_slow_val` is the conjunction). -/
def trendLabel (price emaFastVal emaSlowVal : ℚ) : String :=
  if price > emaFastVal ∧ emaFastVal > emaSlowVal then
    "STRONG UPTREND (Price > Fast > Slow)"
  else if price < emaFastVal ∧ emaFastVal < emaSlowVal then
    "STRONG DOWNTREND (Price < Fast < Slow)"
  else if price > emaSlowVal then "MODERATE UPTREND (Above Slow MA)"
  else "SIDEWAYS"

/-- Momentum classification (src/tech_analysis.py line 102). -/
def momentumLabel (macdHistVal : ℚ) : String :=
  if macdHistVal > 0 then "BULLISH" else "BEARISH"

/-- The slots of the fixed-template summary_text f-string
(src/tech_analysis.py lines 105-115), in template order. -/
structure SummaryText where
  desc : String
  date : ℕ
  close : ℚ
  trend : String
  emaFastLen : ℕ
  emaFastVal : ℚ
  emaSlowLen : ℕ
  emaSlowVal : ℚ
  momentum : String
  macdHist : ℚ
  rsi : ℚ
  rsiStatus : String
  volume : ℚ
deriving DecidableEq, Repr

/-- The raw_data record of the result (src/tech_analysis.py lines 121-126). -/
structure RawData where
  price : ℚ
  rsi : ℚ
  macdHist : ℚ
  trend : String
deriving DecidableEq, Repr

/-- The result dictionary of `analyze_stock_data`
(src/tech_analysis.py lines 119-128). -/
structure AnalysisSummary where
  summaryText : SummaryText
  rawData : RawData
  frame : Frame
deriving DecidableEq, Repr

/-- The summary reducer (src/tech_analysis.py lines 65-128): reads the
last row (`df.iloc[-1]`) and requires a second-to-last row
(`df.iloc[-2]`, bound but otherwise unused), extracts the indicator
values with their read defaults, classifies, and assembles the result;
the call fails (returns `none`) exactly when a required row is absent. -/
def reduceFrame (params : Params) (f : Frame) : Option AnalysisSummary :=
  match f.raw.getLast?, f.raw.dropLast.getLast? with
  | some lastRow, some _ =>
    let price := lastRow.close
    let macdHistVal := readLastD f.macdHist 0
    let rsiVal := readLastD f.rsi 50
    let emaFastVal := readLastD f.emaFast 0
    let emaSlowVal := readLastD f.emaSlow 0
    some
      { summaryText :=
          { desc := params.desc, date := lastRow.date, close := price
            trend := trendLabel price emaFastVal emaSlowVal
            emaFastLen := params.emaFast, emaFastVal := emaFastVal
            emaSlowLen := params.emaSlow, emaSlowVal := emaSlowVal
            momentum := momentumLabel macdHistVal, macdHist := macdHistVal
            rsi := rsiVal, rsiStatus := rsiStatusLabel rsiVal
            volume := lastRow.volume }
        rawData :=
          { price := price, rsi := rsiVal, macdHist := macdHistVal
            trend := trendLabel price emaFastVal emaSlowVal }
        frame := f }
  | _, _ => none

/-- The full analysis call (src/tech_analysis.py lines 35-128): resolve
the profile, compute the indicator columns, reduce to the summary. -/
def analyze_stock_data (df : List Row) (period_type : String) : Option AnalysisSummary :=
  let params := getParams period_type
  reduceFrame params (computeIndicators params df)

/-- Projection: the rsi scalar of an analysis result. -/
def rsiOfResult (r : Option AnalysisSummary) : Option ℚ :=
  r.map fun s => s.rawData.rsi

/-- Projection: the macd_hist scalar of an analysis result. -/
def histOfResult (r : Option AnalysisSummary) : Option ℚ :=
  r.map fun s => s.rawData.macdHist

/-- Projection: the fast EMA value embedded in the summary text. -/
def emaFastOfResult (r : Option AnalysisSummary) : Option ℚ :=
  r.map fun s => s.summaryText.emaFastVal

/-- Projection: the slow EMA value embedded in the summary text. -/
def emaSlowOfResult (r : Option AnalysisSummary) : Option ℚ :=
  r.map fun s => s.summaryText.emaSlowVal

/-- Projection: the momentum label of an analysis result. -/
def momentumOfResult (r : Option AnalysisSummary) : Option String :=
  r.map fun s => s.summaryText.momentum

/-- Projection: the RSI status label of an analysis result. -/
def rsiStatusOfResult (r : Option AnalysisSummary) : Option String :=
  r.map fun s => s.summaryText.rsiStatus

/-- Projection: the summary_text record of an analysis result. -/
def summaryTextOfResult (r : Option AnalysisSummary) : Option SummaryText :=
  r.map fun s => s.summaryText

/-- Projection: the raw_data record of an analysis result. -/
def rawDataOfResult (r : Option AnalysisSummary) : Option RawData :=
  r.map fun s => s.rawData

/-- A flat PriceSeries: `n` rows at constant value `v`, unit volume,
consecutive dates. -/
def flatDf (n : ℕ) (v : ℚ) : List Row :=
  (List.range n).map fun k =>
    { date := k, openV := v, highV := v, lowV := v, close := v, volume := 1 }

/-! ## Concrete inputs used by witnesses -/

/-- A 16-entry all-zero Close series (long enough for the short profile's
MACD histogram to be defined). -/
def zeros16 : List ℚ := List.replicate 16 0

/-- A 64-row series: Close is 0 everywhere except 1 on the final row. -/
def df64 : List Row :=
  (List.range 64).map fun k =>
    { date := k, openV := 0, highV := 0, lowV := 0
      close := if k = 63 then 1 else 0, volume := 1 }

/-- A hand-built frame whose last MACD-histogram cell is exactly 0. -/
def histZeroFrame : Frame :=
  { raw := [⟨0, 0, 0, 0, 0, 1⟩, ⟨1, 0, 0, 0, 0, 1⟩]
    macdLine := [none, none], macdSignal := [none, none]
    macdHist := [none, some 0], rsi := [none, none]
    emaFast := [none, none], emaSlow := [none, none] }

/-- A hand-built frame with a mix of defined and undefined last cells. -/
def mixedFrame : Frame :=
  { raw := [⟨0, 0, 0, 0, 0, 1⟩, ⟨1, 0, 0, 0, 0, 1⟩]
    macdLine := [none, none], macdSignal := [none, none]
    macdHist := [none, some 7], rsi := [none, none]
    emaFast := [none, some 3], emaSlow := [none, none] }

/-- First frame for the last-row-dependence witness. -/
def frameA : Frame :=
  { raw := [⟨0, 1, 1, 1, 1, 1⟩, ⟨1, 2, 2, 2, 2, 2⟩]
    macdLine := [none, none], macdSignal := [none, none]
    macdHist := [none, some 1], rsi := [some 5, some 40]
    emaFast := [none, some 2], emaSlow := [none, some 3] }

/-- Second frame for the last-row-dependence witness: same last row as
`frameA`, different second-to-last row and different leading cells. -/
def frameB : Frame :=
  { raw := [⟨9, 7, 7, 7, 7, 7⟩, ⟨1, 2, 2, 2, 2, 2⟩]
    macdLine := [some 9, none], macdSignal := [some 9, none]
    macdHist := [some 9, some 1], rsi := [none, some 40]
    emaFast := [some 9, some 2], emaSlow := [some 9, some 3] }

/-! ## Helper lemmas about the smoothing recursion -/

lemma smoothAt_isSome (α : ℚ) (len : ℕ) (xs : List ℚ) (_hlen : len ≠ 0) :
    ∀ i, (smoothAt α len xs i).isSome ↔ len ≤ i + 1 := by
  intro i
  induction i with
  | zero =>
    simp only [smoothAt]
    split <;> simp <;> omega
  | succ j ih =>
    simp only [smoothAt]
    split
    · simp; omega
    · split
      · simp; omega
      · rw [Option.isSome_map']
        rw [ih]
        omega

lemma smoothAt_of_all_zero (α : ℚ) (len : ℕ) (xs : List ℚ)
    (hxs : ∀ x ∈ xs, x = 0) :
    ∀ i w, smoothAt α len xs i = some w → w = 0 := by
  have hsum : (xs.take len).sum = 0 := by
    apply List.sum_eq_zero
    intro x hx
    exact hxs x (List.take_subset _ _ hx)
  have hget : ∀ j, xs.getD j 0 = 0 := by
    intro j
    rw [List.getD_eq_getElem?_getD]
    cases hj : xs[j]? with
    | none => rfl
    | some x => exact hxs x (List.getElem?_mem hj)
  intro i
  induction i with
  | zero =>
    intro w h
    simp only [smoothAt] at h
    split at h
    · simp only [Option.some.injEq] at h
      rw [← h, hsum, zero_div]
    · exact absurd h (by simp)
  | succ j ih =>
    intro w h
    simp only [smoothAt] at h
    split at h
    · exact absurd h (by simp)
    · split at h
      · simp only [Option.some.injEq] at h
        rw [← h, hsum, zero_div]
      · rw [Option.map_eq_some'] at h
        obtain ⟨prev, hprev, hw⟩ := h
        rw [← hw, ih prev hprev, hget]
        ring

lemma smoothAt_of_all_const (α : ℚ) (len : ℕ) (xs : List ℚ) (v : ℚ)
    (hlen : len ≠ 0) (hxs : ∀ x ∈ xs, x = v) :
    ∀ i, i < xs.length → ∀ w, smoothAt α len xs i = some w → w = v := by
  have hseed : len ≤ xs.length → (xs.take len).sum / (len : ℚ) = v := by
    intro hle
    have htake : xs.take len = List.replicate len v := by
      rw [List.eq_replicate_iff]
      refine ⟨by rw [List.length_take]; omega, ?_⟩
      intro b hb
      exact hxs b (List.take_subset _ _ hb)
    rw [htake, List.sum_replicate, nsmul_eq_mul]
    exact mul_div_cancel_left₀ v (Nat.cast_ne_zero.mpr hlen)
  have hget : ∀ j, j < xs.length → xs.getD j 0 = v := by
    intro j hj
    rw [List.getD_eq_getElem?_getD, List.getElem?_eq_getElem hj]
    exact hxs _ (List.getElem_mem hj)
  intro i
  induction i with
  | zero =>
    intro hi w h
    simp only [smoothAt] at h
    split at h
    · simp only [Option.some.injEq] at h
      rw [← h]
      exact hseed (by omega)
    · exact absurd h (by simp)
  | succ j ih =>
    intro hi w h
    simp only [smoothAt] at h
    split at h
    · exact absurd h (by simp)
    · split at h
      · simp only [Option.some.injEq] at h
        rw [← h]
        exact hseed (by omega)
      · rw [Option.map_eq_some'] at h
        obtain ⟨prev, hprev, hw⟩ := h
        rw [← hw, ih (by omega) prev hprev, hget (j + 1) hi]
        ring

lemma smoothAt_nonneg (α : ℚ) (len : ℕ) (xs : List ℚ)
    (hxs : ∀ x ∈ xs, 0 ≤ x) (hα0 : 0 ≤ α) (hα1 : α ≤ 1) :
    ∀ i w, smoothAt α len xs i = some w → 0 ≤ w := by
  have hsum : 0 ≤ (xs.take len).sum / (len : ℚ) := by
    apply div_nonneg
    · exact List.sum_nonneg fun x hx => hxs x (List.take_subset _ _ hx)
    · exact Nat.cast_nonneg len
  have hget : ∀ j, 0 ≤ xs.getD j 0 := by
    intro j
    rw [List.getD_eq_getElem?_getD]
    cases hj : xs[j]? with
    | none => simp
    | some x => exact hxs x (List.getElem?_mem hj)
  intro i
  induction i with
  | zero =>
    intro w h
    simp only [smoothAt] at h
    split at h
    · simp only [Option.some.injEq] at h
      rw [← h]; exact hsum
    · exact absurd h (by simp)
  | succ j ih =>
    intro w h
    simp only [smoothAt] at h
    split at h
    · exact absurd h (by simp)
    · split at h
      · simp only [Option.some.injEq] at h
        rw [← h]; exact hsum
      · rw [Option.map_eq_some'] at h
        obtain ⟨prev, hprev, hw⟩ := h
        rw [← hw]
        have h1 : 0 ≤ α * xs.getD (j + 1) 0 := mul_nonneg hα0 (hget (j + 1))
        have h2 : 0 ≤ (1 - α) * prev := mul_nonneg (by linarith) (ih prev hprev)
        linarith

lemma smoothAt_seed (α : ℚ) (len : ℕ) (xs : List ℚ) (i : ℕ) (h : i + 1 = len) :
    smoothAt α len xs i = some ((xs.take len).sum / (len : ℚ)) := by
  cases i with
  | zero =>
    simp only [smoothAt]
    rw [if_pos (by omega)]
  | succ j =>
    simp only [smoothAt]
    rw [if_neg (by omega), if_pos (by omega)]

lemma smoothAt_step (α : ℚ) (len : ℕ) (xs : List ℚ) (j : ℕ) (prev : ℚ)
    (h : len ≤ j + 1) (hp : smoothAt α len xs j = some prev) :
    smoothAt α len xs (j + 1) =
      some (α * xs.getD (j + 1) 0 + (1 - α) * prev) := by
  simp only [smoothAt]
  rw [if_neg (by omega), if_neg (by omega), hp, Option.map_some']

/-! ## Helper lemmas about columns, profile resolution and the reducer -/

lemma lastCell_range_map (g : ℕ → Option ℚ) (n : ℕ) (hn : n ≠ 0) :
    lastCell ((List.range n).map g) = g (n - 1) := by
  obtain ⟨m, rfl⟩ := Nat.exists_eq_succ_of_ne_zero hn
  rw [lastCell, List.range_succ, List.map_append, List.map_cons, List.map_nil,
    List.getLast?_concat]
  rfl

lemma getParams_mem (t : String) :
    getParams t = shortParams ∨ getParams t = midParams ∨ getParams t = longParams := by
  rw [getParams, STRATEGY_PARAMS]
  by_cases h1 : (t == "short") = true
  · simp [List.lookup, h1]
  · by_cases h2 : (t == "mid") = true
    · simp [List.lookup, Bool.of_not_eq_true h1, h2]
    · by_cases h3 : (t == "long") = true
      · simp [List.lookup, Bool.of_not_eq_true h1, Bool.of_not_eq_true h2, h3]
      · simp [List.lookup, Bool.of_not_eq_true h1, Bool.of_not_eq_true h2,
          Bool.of_not_eq_true h3]

lemma getLast?_eq_some_of_two (l : List Row) (h : 2 ≤ l.length) :
    ∃ r q, l.getLast? = some r ∧ l.dropLast.getLast? = some q := by
  have h1 : l ≠ [] := by
    intro he
    rw [he] at h
    simp at h
  have h2 : l.dropLast ≠ [] := by
    intro he
    have hlen2 : l.dropLast.length = 0 := by rw [he]; rfl
    rw [List.length_dropLast] at hlen2
    omega
  obtain ⟨r, hr⟩ := Option.isSome_iff_exists.mp (List.getLast?_isSome.mpr h1)
  obtain ⟨q, hq⟩ := Option.isSome_iff_exists.mp (List.getLast?_isSome.mpr h2)
  exact ⟨r, q, hr, hq⟩

lemma reduceFrame_none_iff (p : Params) (f : Frame) :
    reduceFrame p f = none ↔ f.raw.length < 2 := by
  constructor
  · intro h
    by_contra hlen
    obtain ⟨r, q, hr, hq⟩ := getLast?_eq_some_of_two f.raw (by omega)
    rw [reduceFrame, hr, hq] at h
    simp at h
  · intro hlen
    rw [reduceFrame]
    cases hr : f.raw.getLast? with
    | none => rfl
    | some r =>
      cases hq : f.raw.dropLast.getLast? with
      | none => rfl
      | some q =>
        exfalso
        have h1 : f.raw.dropLast ≠ [] := by
          intro he
          rw [he] at hq
          simp at hq
        have h2 : 1 ≤ f.raw.dropLast.length := List.length_pos.mpr h1
        rw [List.length_dropLast] at h2
        omega

lemma reduceFrame_fields (p : Params) (f : Frame) (s : AnalysisSummary)
    (h : reduceFrame p f = some s) :
    s.rawData.rsi = readLastD f.rsi 50 ∧
    s.rawData.macdHist = readLastD f.macdHist 0 ∧
    s.summaryText.emaFastVal = readLastD f.emaFast 0 ∧
    s.summaryText.emaSlowVal = readLastD f.emaSlow 0 ∧
    s.summaryText.momentum = momentumLabel (readLastD f.macdHist 0) ∧
    s.summaryText.rsiStatus = rsiStatusLabel (readLastD f.rsi 50) ∧
    s.frame = f ∧
    s.rawData.trend =
      trendLabel s.rawData.price (readLastD f.emaFast 0) (readLastD f.emaSlow 0) ∧
    (∀ r, f.raw.getLast? = some r →
      s.rawData.price = r.close ∧ s.summaryText.date = r.date ∧
      s.summaryText.volume = r.volume) ∧
    s.summaryText.desc = p.desc ∧
    s.summaryText.rsi = readLastD f.rsi 50 ∧
    s.summaryText.macdHist = readLastD f.macdHist 0 ∧
    s.summaryText.close = s.rawData.price ∧
    s.summaryText.trend = s.rawData.trend ∧
    s.summaryText.emaFastLen = p.emaFast ∧
    s.summaryText.emaSlowLen = p.emaSlow := by
  cases hr : f.raw.getLast? with
  | none =>
    rw [reduceFrame, hr] at h
    exact absurd h (by simp)
  | some r0 =>
    cases hq : f.raw.dropLast.getLast? with
    | none =>
      rw [reduceFrame, hr, hq] at h
      exact absurd h (by simp)
    | some q0 =>
      rw [reduceFrame, hr, hq, Option.some.injEq] at h
      subst h
      refine ⟨rfl, rfl, rfl, rfl, rfl, rfl, rfl, rfl, ?_, rfl, rfl, rfl, rfl, rfl, rfl, rfl⟩
      intro r hr2
      rw [Option.some.injEq] at hr2
      subst hr2
      exact ⟨rfl, rfl, rfl⟩


/-! ## Helper lemmas about flat series and unsatisfied lookbacks -/

lemma getD_of_all_eq (xs : List ℚ) (v : ℚ) (h : ∀ x ∈ xs, x = v)
    (j : ℕ) (hj : j < xs.length) : xs.getD j 0 = v := by
  rw [List.getD_eq_getElem?_getD, List.getElem?_eq_getElem hj]
  exact h _ (List.getElem_mem hj)

lemma diffs_flat (c : List ℚ) (v : ℚ) (h : ∀ x ∈ c, x = v) :
    ∀ d ∈ diffs c, d = 0 := by
  intro d hd
  rw [diffs] at hd
  obtain ⟨j, hj, rfl⟩ := List.mem_map.mp hd
  have hj2 : j < c.length - 1 := List.mem_range.mp hj
  rw [getD_of_all_eq c v h (j + 1) (by omega), getD_of_all_eq c v h j (by omega)]
  ring

lemma gains_zero_of_diffs (c : List ℚ) (h : ∀ d ∈ diffs c, d = 0) :
    ∀ x ∈ gains c, x = 0 := by
  intro x hx
  obtain ⟨d, hd, rfl⟩ := List.mem_map.mp hx
  rw [h d hd]
  simp

lemma losses_zero_of_diffs (c : List ℚ) (h : ∀ d ∈ diffs c, d = 0) :
    ∀ x ∈ losses c, x = 0 := by
  intro x hx
  obtain ⟨d, hd, rfl⟩ := List.mem_map.mp hx
  rw [h d hd]
  simp

lemma emaAt_flat (len : ℕ) (c : List ℚ) (v : ℚ) (i : ℕ)
    (hlen : len ≠ 0) (h : ∀ x ∈ c, x = v) (hi : i < c.length) :
    ∀ w, emaAt len c i = some w → w = v := by
  intro w hw
  exact smoothAt_of_all_const _ len c v hlen h i hi w hw

lemma macdLineAt_flat (p : MacdParams) (c : List ℚ) (v : ℚ) (i : ℕ)
    (hf : p.fast ≠ 0) (hs : p.slow ≠ 0) (h : ∀ x ∈ c, x = v) (hi : i < c.length) :
    ∀ m, macdLineAt p c i = some m → m = 0 := by
  intro m hm
  rw [macdLineAt] at hm
  cases h1 : emaAt p.fast c i with
  | none => rw [h1] at hm; exact absurd hm (by simp)
  | some a =>
    cases h2 : emaAt p.slow c i with
    | none => rw [h1, h2] at hm; exact absurd hm (by simp)
    | some b =>
      rw [h1, h2, Option.some.injEq] at hm
      rw [← hm, emaAt_flat p.fast c v i hf h hi a h1,
        emaAt_flat p.slow c v i hs h hi b h2]
      ring

lemma macdVals_flat (p : MacdParams) (c : List ℚ) (v : ℚ)
    (hf : p.fast ≠ 0) (hs : p.slow ≠ 0) (h : ∀ x ∈ c, x = v) :
    ∀ x ∈ macdVals p c, x = 0 := by
  intro x hx
  rw [macdVals] at hx
  obtain ⟨i, hi, hxi⟩ := List.mem_filterMap.mp hx
  exact macdLineAt_flat p c v i hf hs h (List.mem_range.mp hi) x hxi

lemma signalAt_flat (p : MacdParams) (c : List ℚ) (v : ℚ) (i : ℕ)
    (hf : p.fast ≠ 0) (hs : p.slow ≠ 0) (h : ∀ x ∈ c, x = v) :
    ∀ w, signalAt p c i = some w → w = 0 := by
  intro w hw
  rw [signalAt] at hw
  split at hw
  · exact absurd hw (by simp)
  · exact smoothAt_of_all_zero _ p.signal (macdVals p c)
      (macdVals_flat p c v hf hs h) _ w hw

lemma macdHistAt_flat (p : MacdParams) (c : List ℚ) (v : ℚ) (i : ℕ)
    (hf : p.fast ≠ 0) (hs : p.slow ≠ 0) (h : ∀ x ∈ c, x = v) (hi : i < c.length) :
    ∀ w, macdHistAt p c i = some w → w = 0 := by
  intro w hw
  rw [macdHistAt] at hw
  cases h1 : macdLineAt p c i with
  | none => rw [h1] at hw; exact absurd hw (by simp)
  | some m =>
    cases h2 : signalAt p c i with
    | none => rw [h1, h2] at hw; exact absurd hw (by simp)
    | some s0 =>
      rw [h1, h2, Option.some.injEq] at hw
      rw [← hw, macdLineAt_flat p c v i hf hs h hi m h1,
        signalAt_flat p c v i hf hs h s0 h2]
      ring

lemma rsiAt_flat (len : ℕ) (c : List ℚ) (v : ℚ) (h : ∀ x ∈ c, x = v) :
    ∀ i, rsiAt len c i = none := by
  intro i
  cases i with
  | zero => rfl
  | succ j =>
    simp only [rsiAt]
    cases hg : smoothAt (1 / (len : ℚ)) len (gains c) j with
    | none => rfl
    | some g =>
      cases hl : smoothAt (1 / (len : ℚ)) len (losses c) j with
      | none => rfl
      | some l =>
        have hg0 : g = 0 := smoothAt_of_all_zero _ len (gains c)
          (gains_zero_of_diffs c (diffs_flat c v h)) j g hg
        have hl0 : l = 0 := smoothAt_of_all_zero _ len (losses c)
          (losses_zero_of_diffs c (diffs_flat c v h)) j l hl
        rw [hg0, hl0]
        simp [rsiFormula]

lemma emaAt_isSome (len : ℕ) (c : List ℚ) (hlen : len ≠ 0) (i : ℕ) :
    (emaAt len c i).isSome ↔ len ≤ i + 1 :=
  smoothAt_isSome _ len c hlen i

lemma emaAt_none_of_short (len : ℕ) (c : List ℚ) (i : ℕ) (h : i + 1 < len) :
    emaAt len c i = none := by
  rw [← Option.not_isSome_iff_eq_none, emaAt,
    Bool.not_eq_true, ← Bool.not_eq_true]
  rw [smoothAt_isSome _ len c (by omega) i]
  omega

lemma rsiAt_none_of_short (len : ℕ) (c : List ℚ) (i : ℕ) (h : i < len) :
    rsiAt len c i = none := by
  cases i with
  | zero => rfl
  | succ j =>
    simp only [rsiAt]
    have h0 : smoothAt (1 / (len : ℚ)) len (gains c) j = none := by
      rw [← Option.not_isSome_iff_eq_none,
        smoothAt_isSome _ len (gains c) (by omega) j]
      omega
    rw [h0]

lemma macdLineAt_none_of_short (p : MacdParams) (c : List ℚ) (i : ℕ)
    (h : i + 1 < p.fast) : macdLineAt p c i = none := by
  rw [macdLineAt, emaAt_none_of_short p.fast c i h]

lemma macdHistAt_none_of_short (p : MacdParams) (c : List ℚ) (i : ℕ)
    (h : i + 1 < p.fast) : macdHistAt p c i = none := by
  rw [macdHistAt, macdLineAt_none_of_short p c i h]

lemma getParams_lengths (t : String) :
    2 < (getParams t).macd.fast ∧ (getParams t).macd.fast ≠ 0 ∧
    (getParams t).macd.slow ≠ 0 ∧ (getParams t).macd.signal ≠ 0 ∧
    2 < (getParams t).rsiLength ∧ 2 < (getParams t).emaFast ∧
    2 < (getParams t).emaSlow := by
  rcases getParams_mem t with h | h | h <;> rw [h] <;>
    exact ⟨by decide, by decide, by decide, by decide, by decide, by decide, by decide⟩

lemma lastCell_computeIndicators (p : Params) (df : List Row) (h : df.length ≠ 0) :
    lastCell (computeIndicators p df).macdHist =
      macdHistAt p.macd (closes df) (df.length - 1) ∧
    lastCell (computeIndicators p df).rsi =
      rsiAt p.rsiLength (closes df) (df.length - 1) ∧
    lastCell (computeIndicators p df).emaFast =
      emaAt p.emaFast (closes df) (df.length - 1) ∧
    lastCell (computeIndicators p df).emaSlow =
      emaAt p.emaSlow (closes df) (df.length - 1) := by
  refine ⟨?_, ?_, ?_, ?_⟩ <;> exact lastCell_range_map _ _ h

lemma getElem?_range_map (g : ℕ → Option ℚ) (n i : ℕ) (h : i < n) :
    ((List.range n).map g)[i]? = some (g i) := by
  rw [List.getElem?_map, List.getElem?_range h, Option.map_some']

lemma closes_flatDf (n : ℕ) (v : ℚ) : ∀ x ∈ closes (flatDf n v), x = v := by
  intro x hx
  rw [closes, flatDf, List.map_map] at hx
  obtain ⟨k, hk, rfl⟩ := List.mem_map.mp hx
  rfl

lemma length_flatDf (n : ℕ) (v : ℚ) : (flatDf n v).length = n := by
  rw [flatDf, List.length_map, List.length_range]


lemma one_div_nat_bounds (len : ℕ) : 0 ≤ 1 / (len : ℚ) ∧ 1 / (len : ℚ) ≤ 1 := by
  constructor
  · positivity
  · cases len with
    | zero => norm_num
    | succ m =>
      rw [div_le_one (by exact_mod_cast Nat.succ_pos m)]
      exact_mod_cast Nat.succ_le_succ (Nat.zero_le m)

lemma gains_nonneg (c : List ℚ) : ∀ x ∈ gains c, 0 ≤ x := by
  intro x hx
  obtain ⟨d, hd, rfl⟩ := List.mem_map.mp hx
  exact le_max_right d 0

lemma losses_nonneg (c : List ℚ) : ∀ x ∈ losses c, 0 ≤ x := by
  intro x hx
  obtain ⟨d, hd, rfl⟩ := List.mem_map.mp hx
  exact le_max_right _ 0

lemma rsiFormula_bounds (g l : ℚ) (hg : 0 ≤ g) (hl : 0 ≤ l) :
    ∀ v, rsiFormula g l = some v → 0 ≤ v ∧ v ≤ 100 := by
  intro v h
  simp only [rsiFormula] at h
  by_cases hl0 : l = 0
  · rw [if_pos hl0] at h
    by_cases hg0 : g = 0
    · rw [if_pos hg0] at h
      exact absurd h (by simp)
    · rw [if_neg hg0, Option.some.injEq] at h
      rw [← h]
      norm_num
  · rw [if_neg hl0, Option.some.injEq] at h
    have hlpos : 0 < l := lt_of_le_of_ne hl (Ne.symm hl0)
    have hgl : 0 ≤ g / l := div_nonneg hg hl
    have hpos : (0 : ℚ) < 1 + g / l := by linarith
    have h3 : 100 / (1 + g / l) ≤ 100 := div_le_self (by norm_num) (by linarith)
    have h4 : 0 < 100 / (1 + g / l) := div_pos (by norm_num) hpos
    rw [← h]
    constructor <;> linarith

/-! ## Claim theorems -/

/-- C1: the trend label is determined from the latest Close, fast EMA and
slow EMA reads by priority order — STRONG UPTREND when Close > fast EMA
and fast EMA > slow EMA; STRONG DOWNTREND when Close < fast EMA and
fast EMA < slow EMA; MODERATE UPTREND when Close > slow EMA and neither
strong condition matched; SIDEWAYS otherwise — and every reduced summary's
trend field is exactly this label of its last-row reads. -/
theorem trend_label_priority :
    (∀ price ef es : ℚ,
      ((price > ef ∧ ef > es) →
        trendLabel price ef es = "STRONG UPTREND (Price > Fast > Slow)") ∧
      ((price < ef ∧ ef < es) →
        trendLabel price ef es = "STRONG DOWNTREND (Price < Fast < Slow)") ∧
      (¬(price > ef ∧ ef > es) → ¬(price < ef ∧ ef < es) → price > es →
        trendLabel price ef es = "MODERATE UPTREND (Above Slow MA)") ∧
      (¬(price > ef ∧ ef > es) → ¬(price < ef ∧ ef < es) → ¬(price > es) →
        trendLabel price ef es = "SIDEWAYS")) ∧
    (∀ (p : Params) (f : Frame) (s : AnalysisSummary), reduceFrame p f = some s →
      ∀ r, f.raw.getLast? = some r →
        s.rawData.trend =
          trendLabel r.close (readLastD f.emaFast 0) (readLastD f.emaSlow 0)) := by
  constructor
  · intro price ef es
    refine ⟨fun h => ?_, fun h => ?_, fun h1 h2 h3 => ?_, fun h1 h2 h3 => ?_⟩
    · rw [trendLabel, if_pos h]
    · rw [trendLabel, if_neg (fun hc => lt_asymm h.1 hc.1), if_pos h]
    · rw [trendLabel, if_neg h1, if_neg h2, if_pos h3]
    · rw [trendLabel, if_neg h1, if_neg h2, if_neg h3]
  · intro p f s h r hr
    obtain ⟨-, -, -, -, -, -, -, htr, hrow, -⟩ := reduceFrame_fields p f s h
    rw [htr, (hrow r hr).1]

/-- Witness for C1 at concrete inputs: each of the four priority branches
is exercised. -/
theorem trend_label_priority_witness :
    trendLabel 3 2 1 = "STRONG UPTREND (Price > Fast > Slow)" ∧
    trendLabel 1 2 3 = "STRONG DOWNTREND (Price < Fast < Slow)" ∧
    trendLabel 3 1 2 = "MODERATE UPTREND (Above Slow MA)" ∧
    trendLabel 1 3 2 = "SIDEWAYS" := by
  obtain ⟨h1, -⟩ := trend_label_priority
  exact ⟨(h1 3 2 1).1 ⟨by norm_num, by norm_num⟩,
    (h1 1 2 3).2.1 ⟨by norm_num, by norm_num⟩,
    (h1 3 1 2).2.2.1 (by norm_num) (by norm_num) (by norm_num),
    (h1 1 3 2).2.2.2 (by norm_num) (by norm_num) (by norm_num)⟩

/-- C2: wherever the MACD line and the signal line are both defined, the
histogram is defined and equals their difference exactly. -/
theorem macd_hist_identity :
    ∀ (p : MacdParams) (c : List ℚ) (i : ℕ) (m s : ℚ),
      macdLineAt p c i = some m → signalAt p c i = some s →
      macdHistAt p c i = some (m - s) := by
  intro p c i m s hm hs
  simp only [macdHistAt, hm, hs]

/-- Witness for C2: on a 16-entry flat series with the short profile the
MACD line and signal line are both defined at the last index and the
histogram is their difference. -/
theorem macd_hist_identity_witness :
    macdHistAt ⟨6, 13, 4⟩ zeros16 15 = some (0 - 0) := by
  have hz : ∀ x ∈ zeros16, x = 0 := fun x hx => List.eq_of_mem_replicate hx
  have hlen : zeros16.length = 16 := List.length_replicate 16 0
  have hm : macdLineAt ⟨6, 13, 4⟩ zeros16 15 = some 0 := by
    obtain ⟨a, ha⟩ := Option.isSome_iff_exists.mp
      ((emaAt_isSome 6 zeros16 (by omega) 15).mpr (by omega))
    obtain ⟨b, hb⟩ := Option.isSome_iff_exists.mp
      ((emaAt_isSome 13 zeros16 (by omega) 15).mpr (by omega))
    have ha0 : a = 0 := emaAt_flat 6 zeros16 0 15 (by omega) hz (by omega) a ha
    have hb0 : b = 0 := emaAt_flat 13 zeros16 0 15 (by omega) hz (by omega) b hb
    rw [macdLineAt, ha, hb, ha0, hb0]
    norm_num
  have hsig : signalAt ⟨6, 13, 4⟩ zeros16 15 = some 0 := by
    rw [signalAt, if_neg (by decide)]
    obtain ⟨w, hw⟩ := Option.isSome_iff_exists.mp
      ((emaAt_isSome 4 (macdVals ⟨6, 13, 4⟩ zeros16) (by omega) 3).mpr (by omega))
    have hw0 : w = 0 := smoothAt_of_all_zero _ 4 _
      (macdVals_flat ⟨6, 13, 4⟩ zeros16 0 (by decide) (by decide) hz) 3 w hw
    rw [show (15 + 1 - (13 : ℕ)) = 3 from rfl, hw, hw0]
  exact macd_hist_identity ⟨6, 13, 4⟩ zeros16 15 0 0 hm hsig

/-- C3: any horizon tag other than short/mid/long resolves to the mid
profile without error, and the full analysis output for such a tag is
identical to the output for the mid tag on the same series. -/
theorem unknown_period_defaults_to_mid :
    ∀ t : String, t ≠ "short" → t ≠ "mid" → t ≠ "long" →
      getParams t = midParams ∧
      ∀ df : List Row, analyze_stock_data df t = analyze_stock_data df "mid" := by
  intro t h1 h2 h3
  have hg : getParams t = midParams := by
    have b1 : (t == "short") = false := beq_eq_false_iff_ne.mpr h1
    have b2 : (t == "mid") = false := beq_eq_false_iff_ne.mpr h2
    have b3 : (t == "long") = false := beq_eq_false_iff_ne.mpr h3
    rw [getParams, STRATEGY_PARAMS]
    simp [List.lookup, b1, b2, b3]
  have hmid : getParams "mid" = midParams := by decide
  exact ⟨hg, fun df => by simp only [analyze_stock_data, hg, hmid]⟩

/-- Witness for C3 at the concrete tag "unknown" and a concrete 2-row
series. -/
theorem unknown_period_defaults_to_mid_witness :
    getParams "unknown" = midParams ∧
    analyze_stock_data (flatDf 2 100) "unknown" =
      analyze_stock_data (flatDf 2 100) "mid" := by
  have h := unknown_period_defaults_to_mid "unknown" (by decide) (by decide) (by decide)
  exact ⟨h.1, h.2 (flatDf 2 100)⟩

/-- C5: at read time an undefined or missing indicator cell is replaced by
its documented default (RSI 50, histogram 0, EMA 0), and a defined cell is
used as-is. -/
theorem read_time_defaults (p : Params) (f : Frame) (s : AnalysisSummary)
    (h : reduceFrame p f = some s) :
    (lastCell f.rsi = none → s.rawData.rsi = 50) ∧
    (∀ v, lastCell f.rsi = some v → s.rawData.rsi = v) ∧
    (lastCell f.macdHist = none → s.rawData.macdHist = 0) ∧
    (∀ v, lastCell f.macdHist = some v → s.rawData.macdHist = v) ∧
    (lastCell f.emaFast = none → s.summaryText.emaFastVal = 0) ∧
    (∀ v, lastCell f.emaFast = some v → s.summaryText.emaFastVal = v) ∧
    (lastCell f.emaSlow = none → s.summaryText.emaSlowVal = 0) ∧
    (∀ v, lastCell f.emaSlow = some v → s.summaryText.emaSlowVal = v) := by
  obtain ⟨h1, h2, h3, h4, -⟩ := reduceFrame_fields p f s h
  refine ⟨fun hn => ?_, fun v hv => ?_, fun hn => ?_, fun v hv => ?_,
    fun hn => ?_, fun v hv => ?_, fun hn => ?_, fun v hv => ?_⟩ <;>
    simp [h1, h2, h3, h4, readLastD, *]

/-- Witness for C5 on a concrete frame mixing missing cells (RSI, slow
EMA) with defined cells (histogram 7, fast EMA 3). -/
theorem read_time_defaults_witness :
    rsiOfResult (reduceFrame midParams mixedFrame) = some 50 ∧
    histOfResult (reduceFrame midParams mixedFrame) = some 7 ∧
    emaFastOfResult (reduceFrame midParams mixedFrame) = some 3 ∧
    emaSlowOfResult (reduceFrame midParams mixedFrame) = some 0 := by
  have hs : (reduceFrame midParams mixedFrame).isSome := by decide
  obtain ⟨s, h⟩ := Option.isSome_iff_exists.mp hs
  obtain ⟨d1, d2, d3, d4, d5, d6, d7, d8⟩ := read_time_defaults midParams mixedFrame s h
  refine ⟨?_, ?_, ?_, ?_⟩
  · simp only [rsiOfResult, h, Option.map_some']
    exact congrArg some (d1 (by decide))
  · simp only [histOfResult, h, Option.map_some']
    exact congrArg some (d4 7 (by decide))
  · simp only [emaFastOfResult, h, Option.map_some']
    exact congrArg some (d6 3 (by decide))
  · simp only [emaSlowOfResult, h, Option.map_some']
    exact congrArg some (d7 (by decide))

/-- C6: the momentum label of a reduced summary is BULLISH exactly when
the latest histogram read is strictly positive and BEARISH otherwise; a
histogram read of exactly 0 yields BEARISH. -/
theorem momentum_bullish_iff_hist_pos (p : Params) (f : Frame) (s : AnalysisSummary)
    (h : reduceFrame p f = some s) :
    (s.summaryText.momentum = "BULLISH" ↔ 0 < readLastD f.macdHist 0) ∧
    (s.summaryText.momentum = "BEARISH" ↔ ¬ 0 < readLastD f.macdHist 0) ∧
    (readLastD f.macdHist 0 = 0 → s.summaryText.momentum = "BEARISH") := by
  obtain ⟨-, -, -, -, hm, -⟩ := reduceFrame_fields p f s h
  rw [hm, momentumLabel]
  by_cases hpos : readLastD f.macdHist 0 > 0
  · rw [if_pos hpos]
    refine ⟨by simp [hpos], ⟨fun hb => absurd hb (by decide), fun hn => absurd hpos hn⟩,
      fun h0 => ?_⟩
    rw [h0] at hpos
    exact absurd hpos (lt_irrefl 0)
  · rw [if_neg hpos]
    exact ⟨⟨fun hb => absurd hb.symm (by decide), fun hp => absurd hp hpos⟩,
      by simp [hpos], fun _ => rfl⟩

/-- Witness for C6 on a concrete frame whose last histogram cell is
exactly 0: the momentum is BEARISH. -/
theorem momentum_bullish_iff_hist_pos_witness :
    momentumOfResult (reduceFrame midParams histZeroFrame) = some "BEARISH" := by
  have hs : (reduceFrame midParams histZeroFrame).isSome := by decide
  obtain ⟨s, h⟩ := Option.isSome_iff_exists.mp hs
  have hm := (momentum_bullish_iff_hist_pos midParams histZeroFrame s h).2.2 (by decide)
  simp only [momentumOfResult, h, Option.map_some', hm]

/-- C9: indicator computation only appends columns — the raw OHLCV rows of
the produced frame are the input rows themselves, for every profile and
series — and re-running with the short versus the long profile on the
same 64-row source series yields different EMA fast/slow columns while
both runs leave the raw rows untouched. -/
theorem indicators_append_only :
    (∀ (p : Params) (df : List Row), (computeIndicators p df).raw = df) ∧
    (computeIndicators (getParams "short") df64).emaFast ≠
      (computeIndicators (getParams "long") df64).emaFast ∧
    (computeIndicators (getParams "short") df64).emaSlow ≠
      (computeIndicators (getParams "long") df64).emaSlow ∧
    (computeIndicators (getParams "short") df64).raw = df64 ∧
    (computeIndicators (getParams "long") df64).raw = df64 := by
  exact ⟨fun p df => rfl, by decide, by decide, rfl, rfl⟩

/-- C4: the analysis call fails (produces no summary) exactly when the
input series has fewer than 2 rows; on a series of exactly 2 rows it
succeeds and every indicator read falls back to its documented default
(RSI 50, histogram 0, EMA 0) since no lookback window is satisfied. -/
theorem analyze_fails_iff_short_input (tag : String) (df : List Row) :
    (analyze_stock_data df tag = none ↔ df.length < 2) ∧
    (df.length = 2 →
      rsiOfResult (analyze_stock_data df tag) = some 50 ∧
      histOfResult (analyze_stock_data df tag) = some 0 ∧
      emaFastOfResult (analyze_stock_data df tag) = some 0 ∧
      emaSlowOfResult (analyze_stock_data df tag) = some 0) := by
  have hun : analyze_stock_data df tag =
      reduceFrame (getParams tag) (computeIndicators (getParams tag) df) := rfl
  have hraw : (computeIndicators (getParams tag) df).raw = df := rfl
  constructor
  · rw [hun, reduceFrame_none_iff, hraw]
  · intro h2
    have hne : analyze_stock_data df tag ≠ none := by
      rw [hun, Ne, reduceFrame_none_iff, hraw]
      omega
    obtain ⟨s, hs⟩ := Option.ne_none_iff_exists'.mp hne
    have hs2 : reduceFrame (getParams tag) (computeIndicators (getParams tag) df) =
        some s := by
      rw [← hun]
      exact hs
    obtain ⟨f1, f2, f3, f4, -⟩ := reduceFrame_fields _ _ _ hs2
    obtain ⟨c1, c2, c3, c4⟩ := lastCell_computeIndicators (getParams tag) df (by omega)
    obtain ⟨G1, G2, G3, G4, G5, G6, G7⟩ := getParams_lengths tag
    have hidx : df.length - 1 = 1 := by omega
    rw [hidx] at c1 c2 c3 c4
    have e1 : lastCell (computeIndicators (getParams tag) df).rsi = none := by
      rw [c2]
      exact rsiAt_none_of_short _ _ _ (by omega)
    have e2 : lastCell (computeIndicators (getParams tag) df).macdHist = none := by
      rw [c1]
      exact macdHistAt_none_of_short _ _ _ (by omega)
    have e3 : lastCell (computeIndicators (getParams tag) df).emaFast = none := by
      rw [c3]
      exact emaAt_none_of_short _ _ _ (by omega)
    have e4 : lastCell (computeIndicators (getParams tag) df).emaSlow = none := by
      rw [c4]
      exact emaAt_none_of_short _ _ _ (by omega)
    refine ⟨?_, ?_, ?_, ?_⟩
    · simp only [rsiOfResult, hs, Option.map_some', f1, readLastD, e1, Option.getD_none]
    · simp only [histOfResult, hs, Option.map_some', f2, readLastD, e2, Option.getD_none]
    · simp only [emaFastOfResult, hs, Option.map_some', f3, readLastD, e3, Option.getD_none]
    · simp only [emaSlowOfResult, hs, Option.map_some', f4, readLastD, e4, Option.getD_none]

/-- Witness for C4: the empty series fails; the 2-row series
Close = [100, 100] succeeds with all reads at their defaults. -/
theorem analyze_fails_iff_short_input_witness :
    analyze_stock_data [] "mid" = none ∧
    rsiOfResult (analyze_stock_data (flatDf 2 100) "mid") = some 50 ∧
    histOfResult (analyze_stock_data (flatDf 2 100) "mid") = some 0 ∧
    emaFastOfResult (analyze_stock_data (flatDf 2 100) "mid") = some 0 ∧
    emaSlowOfResult (analyze_stock_data (flatDf 2 100) "mid") = some 0 := by
  have h1 := (analyze_fails_iff_short_input "mid" []).1.mpr (by simp)
  have h2 := (analyze_fails_iff_short_input "mid" (flatDf 2 100)).2 (by rw [length_flatDf])
  exact ⟨h1, h2.1, h2.2.1, h2.2.2.1, h2.2.2.2⟩

/-- C7 (amended): every defined RSI value lies in [0, 100]; and when the
Close series is non-decreasing over the whole series up to the evaluation
point (so the average loss is exactly zero), any defined RSI value equals
100.  The original window-only hypothesis is refuted by
rsi_monotone_window_counterexample: exponential smoothing keeps any
earlier loss strictly positive, so non-decrease over just the lookback
window does not force RSI = 100. -/
theorem rsi_bounds_and_monotone :
    (∀ (len : ℕ) (c : List ℚ) (i : ℕ) (v : ℚ),
      rsiAt len c i = some v → 0 ≤ v ∧ v ≤ 100) ∧
    (∀ (len : ℕ) (c : List ℚ) (i : ℕ) (v : ℚ),
      (∀ j, j + 1 < c.length → c.getD j 0 ≤ c.getD (j + 1) 0) →
      rsiAt len c i = some v → v = 100) := by
  constructor
  · intro len c i v h
    cases i with
    | zero => simp [rsiAt] at h
    | succ j =>
      simp only [rsiAt] at h
      cases hg : smoothAt (1 / (len : ℚ)) len (gains c) j with
      | none => rw [hg] at h; simp at h
      | some g =>
        cases hl : smoothAt (1 / (len : ℚ)) len (losses c) j with
        | none => rw [hg, hl] at h; simp at h
        | some l =>
          rw [hg, hl] at h
          obtain ⟨a0, a1⟩ := one_div_nat_bounds len
          have hgn : 0 ≤ g := smoothAt_nonneg _ len (gains c) (gains_nonneg c) a0 a1 j g hg
          have hln : 0 ≤ l := smoothAt_nonneg _ len (losses c) (losses_nonneg c) a0 a1 j l hl
          exact rsiFormula_bounds g l hgn hln v h
  · intro len c i v hmono h
    cases i with
    | zero => simp [rsiAt] at h
    | succ j =>
      simp only [rsiAt] at h
      cases hg : smoothAt (1 / (len : ℚ)) len (gains c) j with
      | none => rw [hg] at h; simp at h
      | some g =>
        cases hl : smoothAt (1 / (len : ℚ)) len (losses c) j with
        | none => rw [hg, hl] at h; simp at h
        | some l =>
          rw [hg, hl] at h
          have hd0 : ∀ d ∈ diffs c, 0 ≤ d := by
            intro d hd
            rw [diffs] at hd
            obtain ⟨k, hk, rfl⟩ := List.mem_map.mp hd
            have hk2 := List.mem_range.mp hk
            have := hmono k (by omega)
            linarith
          have hlz : ∀ x ∈ losses c, x = 0 := by
            intro x hx
            obtain ⟨d, hd, rfl⟩ := List.mem_map.mp hx
            have := hd0 d hd
            rw [max_eq_right (by linarith)]
          have hl0 : l = 0 := smoothAt_of_all_zero _ len (losses c) hlz j l hl
          subst hl0
          have hred : rsiFormula g 0 = some v := h
          have hform : rsiFormula g 0 = if g = 0 then none else some 100 := by
            simp [rsiFormula]
          rw [hform] at hred
          by_cases hg0 : g = 0
          · rw [if_pos hg0] at hred
            simp at hred
          · rw [if_neg hg0, Option.some.injEq] at hred
            exact hred.symm

/-- Witness for C7: on the rising series [1, 2] with RSI length 1 the RSI
is defined and equals 100; the theorem yields both the bounds and the
monotone-case value there. -/
theorem rsi_bounds_and_monotone_witness :
    rsiAt 1 [(1 : ℚ), 2] 1 = some 100 ∧
    (0 ≤ (100 : ℚ) ∧ (100 : ℚ) ≤ 100) ∧ (100 : ℚ) = 100 := by
  have hg : gains [(1 : ℚ), 2] = [1] := by
    simp [gains, diffs, List.range_succ]
    try norm_num
  have hl : losses [(1 : ℚ), 2] = [0] := by
    simp [losses, diffs, List.range_succ]
    try norm_num
  have h1 : smoothAt (1 / ((1 : ℕ) : ℚ)) 1 [(1 : ℚ)] 0 = some 1 := by
    simp [smoothAt]
  have h2 : smoothAt (1 / ((1 : ℕ) : ℚ)) 1 [(0 : ℚ)] 0 = some 0 := by
    simp [smoothAt]
  have h100 : rsiAt 1 [(1 : ℚ), 2] 1 = some 100 := by
    show rsiAt 1 [(1 : ℚ), 2] (0 + 1) = some 100
    simp only [rsiAt, hg, hl, h1, h2]
    norm_num [rsiFormula]
  refine ⟨h100, rsi_bounds_and_monotone.1 1 [(1 : ℚ), 2] 1 100 h100,
    rsi_bounds_and_monotone.2 1 [(1 : ℚ), 2] 1 100 ?_ h100⟩
  intro j hj
  have hj0 : j = 0 := by simp at hj; omega
  subst hj0
  norm_num [List.getD]

/-- C8: on a flat Close series (any constant value, any length at least
2, hence in particular any length satisfying every lookback) the analysis
reports momentum BEARISH (the histogram reads 0) and RSI status NEUTRAL
(the RSI is undefined on a flat series and reads its neutral default). -/
theorem flat_series_bearish_neutral (tag : String) (n : ℕ) (v : ℚ) (hn : 2 ≤ n) :
    momentumOfResult (analyze_stock_data (flatDf n v) tag) = some "BEARISH" ∧
    rsiStatusOfResult (analyze_stock_data (flatDf n v) tag) = some "NEUTRAL" := by
  have hun : analyze_stock_data (flatDf n v) tag =
      reduceFrame (getParams tag) (computeIndicators (getParams tag) (flatDf n v)) := rfl
  have hraw : (computeIndicators (getParams tag) (flatDf n v)).raw = flatDf n v := rfl
  have hlen : (flatDf n v).length = n := length_flatDf n v
  have hflat := closes_flatDf n v
  have hclen : (closes (flatDf n v)).length = n := by
    rw [closes, List.length_map, hlen]
  have hne : reduceFrame (getParams tag) (computeIndicators (getParams tag) (flatDf n v)) ≠
      none := by
    rw [Ne, reduceFrame_none_iff, hraw, hlen]
    omega
  obtain ⟨s, hs⟩ := Option.ne_none_iff_exists'.mp hne
  obtain ⟨-, -, -, -, m5, m6, -⟩ := reduceFrame_fields _ _ _ hs
  obtain ⟨c1, c2, -, -⟩ := lastCell_computeIndicators (getParams tag) (flatDf n v)
    (by omega)
  obtain ⟨G1, G2, G3, G4, G5, G6, G7⟩ := getParams_lengths tag
  rw [hlen] at c1 c2
  have hhist : readLastD (computeIndicators (getParams tag) (flatDf n v)).macdHist 0 = 0 := by
    cases hh : macdHistAt (getParams tag).macd (closes (flatDf n v)) (n - 1) with
    | none => rw [readLastD, c1, hh]; rfl
    | some w =>
      have hw : w = 0 := macdHistAt_flat (getParams tag).macd (closes (flatDf n v)) v
        (n - 1) G2 G3 hflat (by rw [hclen]; omega) w hh
      rw [readLastD, c1, hh, hw]
      rfl
  have hrsi : readLastD (computeIndicators (getParams tag) (flatDf n v)).rsi 50 = 50 := by
    rw [readLastD, c2, rsiAt_flat _ _ v hflat (n - 1)]
    rfl
  constructor
  · rw [hun]
    simp only [momentumOfResult, hs, Option.map_some']
    rw [m5, hhist, momentumLabel, if_neg (lt_irrefl 0)]
  · rw [hun]
    simp only [rsiStatusOfResult, hs, Option.map_some']
    rw [m6, hrsi, rsiStatusLabel, if_neg (by norm_num), if_neg (by norm_num)]

/-- Witness for C8: a 70-row flat series at value 100 with the mid profile
(70 rows exceed every mid lookback) is BEARISH and NEUTRAL. -/
theorem flat_series_bearish_neutral_witness :
    momentumOfResult (analyze_stock_data (flatDf 70 100) "mid") = some "BEARISH" ∧
    rsiStatusOfResult (analyze_stock_data (flatDf 70 100) "mid") = some "NEUTRAL" :=
  flat_series_bearish_neutral "mid" 70 100 (by norm_num)

/-- C10: the reducer depends only on the frame's last row and the resolved
profile — two frames with at least 2 rows agreeing on their last row (raw
row and last indicator cells) produce identical summary text and raw
data; the second-to-last row is required to exist but never influences
the output. -/
theorem summary_depends_only_on_last_row (p : Params) (f1 f2 : Frame)
    (h1 : 2 ≤ f1.raw.length) (h2 : 2 ≤ f2.raw.length)
    (hrow : f1.raw.getLast? = f2.raw.getLast?)
    (hh : lastCell f1.macdHist = lastCell f2.macdHist)
    (hr : lastCell f1.rsi = lastCell f2.rsi)
    (hef : lastCell f1.emaFast = lastCell f2.emaFast)
    (hes : lastCell f1.emaSlow = lastCell f2.emaSlow) :
    summaryTextOfResult (reduceFrame p f1) = summaryTextOfResult (reduceFrame p f2) ∧
    rawDataOfResult (reduceFrame p f1) = rawDataOfResult (reduceFrame p f2) := by
  obtain ⟨r1, q1, hr1, hq1⟩ := getLast?_eq_some_of_two f1.raw h1
  obtain ⟨r2, q2, hr2, hq2⟩ := getLast?_eq_some_of_two f2.raw h2
  have hreq : r1 = r2 := by
    rw [hr1, hr2] at hrow
    exact Option.some.inj hrow
  subst hreq
  unfold reduceFrame
  rw [hr1, hq1, hr2, hq2]
  simp only [summaryTextOfResult, rawDataOfResult, Option.map_some', readLastD,
    hh, hr, hef, hes]
  exact ⟨trivial, trivial⟩

/-- Witness for C10: two concrete frames sharing only their last row (the
second-to-last rows and all leading cells differ) reduce to the same
summary text and raw data. -/
theorem summary_depends_only_on_last_row_witness :
    summaryTextOfResult (reduceFrame midParams frameA) =
      summaryTextOfResult (reduceFrame midParams frameB) ∧
    rawDataOfResult (reduceFrame midParams frameA) =
      rawDataOfResult (reduceFrame midParams frameB) :=
  summary_depends_only_on_last_row midParams frameA frameB (by decide) (by decide)
    (by decide) (by decide) (by decide) (by decide) (by decide)
/-- Counterexample refuting C7 as frozen: on the Close series
[1, 0, 1, 2, 3] with RSI length 2, the closes are non-decreasing over the
lookback window ending at the last index (indeed from index 1 onward:
0 ≤ 1 ≤ 2 ≤ 3, so the last two diffs — all the window covers for
length 2 — are +1, +1), yet the RSI at the last index is defined and
equals 175/2 = 87.5, not 100: Wilder smoothing keeps the index-1 loss
alive in the average loss. -/
theorem rsi_monotone_window_counterexample :
    ([(1 : ℚ), 0, 1, 2, 3].getD 1 0 ≤ [(1 : ℚ), 0, 1, 2, 3].getD 2 0) ∧
    ([(1 : ℚ), 0, 1, 2, 3].getD 2 0 ≤ [(1 : ℚ), 0, 1, 2, 3].getD 3 0) ∧
    ([(1 : ℚ), 0, 1, 2, 3].getD 3 0 ≤ [(1 : ℚ), 0, 1, 2, 3].getD 4 0) ∧
    rsiAt 2 [(1 : ℚ), 0, 1, 2, 3] 4 = some (175 / 2) ∧
    (175 / 2 : ℚ) ≠ 100 := by
  have hg4 : gains [(1 : ℚ), 0, 1, 2, 3] = [0, 1, 1, 1] := by
    rw [gains, diffs,
      show List.range ([(1 : ℚ), 0, 1, 2, 3].length - 1) = [0, 1, 2, 3] from by decide]
    norm_num [max_def]
  have hl4 : losses [(1 : ℚ), 0, 1, 2, 3] = [1, 0, 0, 0] := by
    rw [losses, diffs,
      show List.range ([(1 : ℚ), 0, 1, 2, 3].length - 1) = [0, 1, 2, 3] from by decide]
    norm_num [max_def]
  have hsg1 : smoothAt (1 / ((2 : ℕ) : ℚ)) 2 [(0 : ℚ), 1, 1, 1] 1 = some (1 / 2) := by
    rw [smoothAt_seed _ 2 _ 1 rfl,
      show ([(0 : ℚ), 1, 1, 1].take 2) = [0, 1] from by decide]
    norm_num
  have hsg2 : smoothAt (1 / ((2 : ℕ) : ℚ)) 2 [(0 : ℚ), 1, 1, 1] 2 = some (3 / 4) := by
    have h := smoothAt_step (1 / ((2 : ℕ) : ℚ)) 2 [(0 : ℚ), 1, 1, 1] 1 (1 / 2)
      (by omega) hsg1
    rw [show List.getD [(0 : ℚ), 1, 1, 1] (1 + 1) 0 = 1 from by decide,
      show (1 / ((2 : ℕ) : ℚ)) * 1 + (1 - 1 / ((2 : ℕ) : ℚ)) * (1 / 2) = 3 / 4 from by
        norm_num] at h
    exact h
  have hsg3 : smoothAt (1 / ((2 : ℕ) : ℚ)) 2 [(0 : ℚ), 1, 1, 1] 3 = some (7 / 8) := by
    have h := smoothAt_step (1 / ((2 : ℕ) : ℚ)) 2 [(0 : ℚ), 1, 1, 1] 2 (3 / 4)
      (by omega) hsg2
    rw [show List.getD [(0 : ℚ), 1, 1, 1] (2 + 1) 0 = 1 from by decide,
      show (1 / ((2 : ℕ) : ℚ)) * 1 + (1 - 1 / ((2 : ℕ) : ℚ)) * (3 / 4) = 7 / 8 from by
        norm_num] at h
    exact h
  have hsl1 : smoothAt (1 / ((2 : ℕ) : ℚ)) 2 [(1 : ℚ), 0, 0, 0] 1 = some (1 / 2) := by
    rw [smoothAt_seed _ 2 _ 1 rfl,
      show ([(1 : ℚ), 0, 0, 0].take 2) = [1, 0] from by decide]
    norm_num
  have hsl2 : smoothAt (1 / ((2 : ℕ) : ℚ)) 2 [(1 : ℚ), 0, 0, 0] 2 = some (1 / 4) := by
    have h := smoothAt_step (1 / ((2 : ℕ) : ℚ)) 2 [(1 : ℚ), 0, 0, 0] 1 (1 / 2)
      (by omega) hsl1
    rw [show List.getD [(1 : ℚ), 0, 0, 0] (1 + 1) 0 = 0 from by decide,
      show (1 / ((2 : ℕ) : ℚ)) * 0 + (1 - 1 / ((2 : ℕ) : ℚ)) * (1 / 2) = 1 / 4 from by
        norm_num] at h
    exact h
  have hsl3 : smoothAt (1 / ((2 : ℕ) : ℚ)) 2 [(1 : ℚ), 0, 0, 0] 3 = some (1 / 8) := by
    have h := smoothAt_step (1 / ((2 : ℕ) : ℚ)) 2 [(1 : ℚ), 0, 0, 0] 2 (1 / 4)
      (by omega) hsl2
    rw [show List.getD [(1 : ℚ), 0, 0, 0] (2 + 1) 0 = 0 from by decide,
      show (1 / ((2 : ℕ) : ℚ)) * 0 + (1 - 1 / ((2 : ℕ) : ℚ)) * (1 / 4) = 1 / 8 from by
        norm_num] at h
    exact h
  have hfin : rsiAt 2 [(1 : ℚ), 0, 1, 2, 3] 4 = some (175 / 2) := by
    show rsiAt 2 [(1 : ℚ), 0, 1, 2, 3] (3 + 1) = some (175 / 2)
    simp only [rsiAt, hg4, hl4, hsg3, hsl3]
    norm_num [rsiFormula]
  exact ⟨by decide, by decide, by decide, hfin, by norm_num⟩
